import Mathlib

/-!
Shallow embedding of the anchor-based attendance table extractor
(hajri-ocr/table_extractor.py, class TableExtractor) over exact rational
arithmetic.  Pixel coordinates and percentages are modelled as rationals;
the Python regular expressions used by the extractor are modelled by
hand-rolled matchers with the same leftmost/greedy semantics on the ASCII
inputs the extractor handles; Python dict semantics (insertion order kept,
assignment overwrites in place) are modelled by association lists.
The TypeError raised by comparing None with an int inside
_validate_entries is modelled by Except; extract_table_data catches every
exception and returns the empty list, which the top-level model mirrors.
-/

namespace Hajri

/-- Uppercase a list of characters (model of Python str.upper on ASCII input). -/
def upperL (l : List Char) : List Char := l.map Char.toUpper

/-- Whitespace test for the regex class \s on the ASCII inputs handled here. -/
def isSpaceC (c : Char) : Bool :=
  c = ' ' || c = '\t' || c = '\n' || c = '\r'

/-- Drop leading regex whitespace. -/
def dropSpaces (l : List Char) : List Char := l.dropWhile isSpaceC

/-- Maximal leading digit run and the remainder (greedy \d+). -/
def splitDigits (l : List Char) : List Char × List Char :=
  (l.takeWhile Char.isDigit, l.dropWhile Char.isDigit)

/-- Numeric value of a digit string (model of Python int on a digit run). -/
def digitsToNat (l : List Char) : Nat :=
  l.foldl (fun acc c => 10 * acc + (c.toNat - '0'.toNat)) 0

/-- Rational value of a decimal literal intpart.fracpart (model of Python float). -/
def decimalVal (ip fp : List Char) : ℚ :=
  (digitsToNat ip : ℚ) + (digitsToNat fp : ℚ) / ((10 : ℚ) ^ fp.length)

/-- Boolean list-of-chars prefix test. -/
def leadsWith : List Char → List Char → Bool
  | [], _ => true
  | _ :: _, [] => false
  | a :: as, b :: bs => a = b && leadsWith as bs

/-- Substring containment test (model of the Python in operator on str). -/
def containsL (pat : List Char) : List Char → Bool
  | [] => leadsWith pat []
  | c :: rest => leadsWith pat (c :: rest) || containsL pat rest

/-- Strip leading and trailing whitespace (model of Python str.strip). -/
def trimL (l : List Char) : List Char :=
  ((l.dropWhile isSpaceC).reverse.dropWhile isSpaceC).reverse

/-- Take exactly n characters satisfying p, returning them and the remainder. -/
def takeExact (p : Char → Bool) : Nat → List Char → Option (List Char × List Char)
  | 0, l => some ([], l)
  | _ + 1, [] => none
  | n + 1, c :: rest =>
    if p c then (takeExact p n rest).map (fun q => (c :: q.1, q.2)) else none

/-- Match the pattern [A-Z]{3,4}[0-9]{3} anchored at the head of the list,
    greedy in the letter count (four letters tried before three), returning
    the matched characters.  Model of one re.search attempt position. -/
def matchCodeAt (l : List Char) : Option (List Char) :=
  match takeExact Char.isUpper 4 l with
  | some (ls, r1) =>
    match takeExact Char.isDigit 3 r1 with
    | some (ds, _) => some (ls ++ ds)
    | none =>
      match takeExact Char.isUpper 3 l with
      | some (ls3, r2) =>
        match takeExact Char.isDigit 3 r2 with
        | some (ds, _) => some (ls3 ++ ds)
        | none => none
      | none => none
  | none =>
    match takeExact Char.isUpper 3 l with
    | some (ls3, r2) =>
      match takeExact Char.isDigit 3 r2 with
      | some (ds, _) => some (ls3 ++ ds)
      | none => none
    | none => none

/-- Leftmost match of the course-code pattern, returning group 0 of
    re.search of [A-Z]{3,4}\d{3}. -/
def codeSearch : List Char → Option (List Char)
  | [] => none
  | c :: rest =>
    match matchCodeAt (c :: rest) with
    | some m => some m
    | none => codeSearch rest

/-- Match digits / digits anchored at the head (one re.search attempt of
    the attendance pattern (\d+)\s*/\s*(\d+)). -/
def matchAttAt (l : List Char) : Option (Nat × Nat) :=
  let (d1, r1) := splitDigits l
  if d1.isEmpty then none
  else
    match dropSpaces r1 with
    | '/' :: r2 =>
      let (d2, _) := splitDigits (dropSpaces r2)
      if d2.isEmpty then none else some (digitsToNat d1, digitsToNat d2)
    | _ => none

/-- Leftmost match of the attendance fraction pattern. -/
def attSearch : List Char → Option (Nat × Nat)
  | [] => none
  | c :: rest =>
    match matchAttAt (c :: rest) with
    | some m => some m
    | none => attSearch rest

/-- Test that after optional whitespace the list continues with a percent sign. -/
def pctSign (l : List Char) : Bool :=
  match dropSpaces l with
  | '%' :: _ => true
  | _ => false

/-- Match the percentage pattern (\d+(?:\.\d+)?)\s*% anchored at the head,
    greedy in the optional fractional part with backtracking. -/
def matchPctAt (l : List Char) : Option ℚ :=
  let (d1, r1) := splitDigits l
  if d1.isEmpty then none
  else
    match r1 with
    | '.' :: r2 =>
      let (d2, r3) := splitDigits r2
      if !d2.isEmpty && pctSign r3 then some (decimalVal d1 d2)
      else if pctSign r1 then some (decimalVal d1 []) else none
    | _ => if pctSign r1 then some (decimalVal d1 []) else none

/-- Leftmost match of the percentage pattern. -/
def pctSearch : List Char → Option ℚ
  | [] => none
  | c :: rest =>
    match matchPctAt (c :: rest) with
    | some m => some m
    | none => pctSearch rest

/-- Insertion step of the stable sort: place x after every element that
    compares le to it and before the first that does not. -/
def insertLe (le : α → α → Bool) (x : α) : List α → List α
  | [] => [x]
  | y :: ys => if le y x then y :: insertLe le x ys else x :: y :: ys

/-- Stable ascending sort (model of Python sorted, which is stable): elements
    are inserted in list order, an element landing after every earlier
    element with an le-equal key. -/
def sortStable (le : α → α → Bool) (l : List α) : List α :=
  l.foldl (fun acc x => insertLe le x acc) []

/-- Quadrilateral OCR bounding box, four (x, y) corner points. -/
structure Box where
  p1 : ℚ × ℚ
  p2 : ℚ × ℚ
  p3 : ℚ × ℚ
  p4 : ℚ × ℚ
  deriving Repr, DecidableEq

/-- Raw OCR line as delivered by the engine: box, recognized text, confidence. -/
structure OcrLine where
  box : Box
  text : String
  conf : ℚ
  deriving Repr, DecidableEq

/-- Token record built by _tokenize_ocr_lines. -/
structure Token where
  text : String
  conf : ℚ
  x_center : ℚ
  y_center : ℚ
  box : Box
  deriving Repr, DecidableEq

/-- Anchor record built by _detect_anchors. -/
structure Anchor where
  course_code : String
  class_type : String
  x_center : ℚ
  y_center : ℚ
  deriving Repr, DecidableEq

/-- Attendance field record built by _detect_attendance_fields. -/
structure AttField where
  present : ℤ
  total : ℤ
  x_center : ℚ
  y_center : ℚ
  deriving Repr, DecidableEq

/-- Percentage field record built by _detect_percentage_fields. -/
structure PctField where
  percentage : ℚ
  x_center : ℚ
  y_center : ℚ
  deriving Repr, DecidableEq

/-- Entry dict as produced by _match_fields_to_anchors and threaded through
    the later stages; present/total/percentage model the possibly-None values. -/
structure RawEntry where
  course_code : String
  class_type : String
  present : Option ℤ
  total : Option ℤ
  percentage : Option ℚ
  y_center : ℚ
  course_name : Option String
  deriving Repr, DecidableEq

/-- Final pydantic AttendanceEntry record (models.py), with its field
    range validation applied at construction. -/
structure AttendanceEntry where
  course_code : String
  course_name : String
  class_type : String
  present : ℤ
  total : ℤ
  percentage : ℚ
  confidence : ℚ
  deriving Repr, DecidableEq

/-- Column zone for the course-code column, fraction of image width. -/
def courseCodeZone : ℚ × ℚ := (0, 7/20)

/-- Column zone for the class-type column. -/
def classTypeZone : ℚ × ℚ := (7/20, 1/2)

/-- Column zone for the attendance-fraction column. -/
def attendanceZone : ℚ × ℚ := (1/2, 3/4)

/-- Column zone for the percentage column. -/
def percentageZone : ℚ × ℚ := (3/4, 1)

/-- Vertical matching tolerance in pixels (y_tolerance = 20.0). -/
def yTol : ℚ := 20

/-- Left/right region split threshold as a fraction of image width (0.52). -/
def splitThreshold : ℚ := 13/25

/-- Tokenizer _tokenize_ocr_lines: build tokens with corner-averaged centers
    and accumulate the running maximum x coordinate, starting from 0. -/
def tokenizeOcrLines (lines : List OcrLine) : List Token × ℚ :=
  lines.foldl
    (fun acc line =>
      let b := line.box
      let xc := (b.p1.1 + b.p2.1 + b.p3.1 + b.p4.1) / 4
      let yc := (b.p1.2 + b.p2.2 + b.p3.2 + b.p4.2) / 4
      let mx := max (max b.p1.1 b.p2.1) (max b.p3.1 b.p4.1)
      (acc.1 ++ [{ text := String.mk (trimL line.text.toList), conf := line.conf,
                   x_center := xc, y_center := yc, box := b }],
       max acc.2 mx))
    ([], 0)

/-- Normalized horizontal position _get_x_ratio: x divided by width when the
    width is positive, 0 otherwise. -/
def xRatio (x w : ℚ) : ℚ := if 0 < w then x / w else 0

/-- Zone membership _in_zone: half-open interval test lo <= r < hi. -/
def inZone (r : ℚ) (zone : ℚ × ℚ) : Bool := zone.1 ≤ r && r < zone.2

/-- Region splitter _split_left_right: fixed threshold split with a median
    fallback when one side comes out empty. -/
def splitLeftRight (tokens : List Token) (w : ℚ) : List Token × List Token :=
  let thr := w * splitThreshold
  let left := tokens.filter (fun t => t.x_center < thr)
  let right := tokens.filter (fun t => !(t.x_center < thr))
  if (left.isEmpty || right.isEmpty) && !tokens.isEmpty then
    let xs := sortStable (fun a b => decide (a ≤ b)) (tokens.map (fun t => t.x_center))
    let thr2 := xs.getD (xs.length / 2) 0
    (tokens.filter (fun t => t.x_center < thr2),
     tokens.filter (fun t => !(t.x_center < thr2)))
  else (left, right)

/-- Course-code normalization _normalize_course_code. -/
def normalizeCourseCode (raw : String) : String :=
  let l := raw.toList
  if l.isEmpty then "" else
  let leftPart := l.takeWhile (fun c => c ≠ '/')
  let cleaned := (upperL leftPart).filter (fun c => c.isUpper || c.isDigit)
  if cleaned.isEmpty then "" else
  let letters := (cleaned.takeWhile Char.isUpper).take 5
  if letters.length < 2 then String.mk (cleaned.take 7) else
  let tl := cleaned.drop letters.length
  let tailFixed := tl.map (fun c =>
    if c.isDigit then c
    else if c = 'O' || c = 'D' || c = 'Q' then '0'
    else if c = 'I' || c = 'L' then '1'
    else c)
  let digitsOnly := tailFixed.filter Char.isDigit
  let digitPart := (digitsOnly ++ ['0', '0', '0']).take 3
  String.mk (trimL (letters.take 4 ++ digitPart))

/-- Class-type text check of _detect_anchors: LECT tested before LAB on the
    uppercased token text. -/
def classTypeOf (tu : List Char) : Option String :=
  if containsL "LECT".toList tu then some "LECT"
  else if containsL "LAB".toList tu then some "LAB"
  else none

/-- Inner loop of _detect_anchors: scan every other token (identity modelled
    by list position) in the same horizontal band for a class type. -/
def findClassType (et : List (Nat × Token)) (i : Nat) (t : Token) : Option String :=
  et.findSome? (fun q =>
    if q.1 = i then none
    else if |q.2.y_center - t.y_center| ≤ yTol then classTypeOf (upperL q.2.text.toList)
    else none)

/-- Anchor attempt for one token of _detect_anchors: course-code pattern,
    course-code zone test, then the class-type scan. -/
def mkAnchor (et : List (Nat × Token)) (w : ℚ) (i : Nat) (t : Token) : Option Anchor :=
  match codeSearch (upperL t.text.toList) with
  | none => none
  | some code =>
    if inZone (xRatio t.x_center w) courseCodeZone then
      match findClassType et i t with
      | some ct =>
        some { course_code := normalizeCourseCode (String.mk code),
               class_type := ct, x_center := t.x_center, y_center := t.y_center }
      | none => none
    else none

/-- Anchor detector _detect_anchors over the left-region tokens. -/
def detectAnchors (tokens : List Token) (w : ℚ) : List Anchor :=
  let et := tokens.enum
  et.filterMap (fun p => mkAnchor et w p.1 p.2)

/-- OCR-confusion cleanup of _detect_attendance_fields: uppercase then
    O to 0, L to 1, I to 1. -/
def cleanAttText (l : List Char) : List Char :=
  (upperL l).map (fun c =>
    if c = 'O' then '0' else if c = 'L' then '1' else if c = 'I' then '1' else c)

/-- Attendance field detector _detect_attendance_fields. -/
def detectAttendanceFields (tokens : List Token) (w : ℚ) : List AttField :=
  tokens.filterMap (fun t =>
    match attSearch (cleanAttText t.text.toList) with
    | none => none
    | some (p, tot) =>
      if 100 < p || 100 < tot then none
      else if inZone (xRatio t.x_center w) attendanceZone then
        some { present := (p : ℤ), total := (tot : ℤ),
               x_center := t.x_center, y_center := t.y_center }
      else none)

/-- Percentage field detector _detect_percentage_fields; the pattern runs on
    the raw token text, no uppercase or confusion cleanup. -/
def detectPercentageFields (tokens : List Token) (w : ℚ) : List PctField :=
  tokens.filterMap (fun t =>
    match pctSearch t.text.toList with
    | none => none
    | some v =>
      if 100 < v then none
      else if inZone (xRatio t.x_center w) percentageZone then
        some { percentage := v, x_center := t.x_center, y_center := t.y_center }
      else none)

/-- Scan step of the nearest attendance field search: keep the candidate
    whose vertical distance is below tolerance and strictly below the best
    distance so far (ties keep the earlier field). -/
def bestStepAtt (ay : ℚ) (acc : Option (AttField × ℚ)) (f : AttField) :
    Option (AttField × ℚ) :=
  let d := |f.y_center - ay|
  match acc with
  | none => if d < yTol then some (f, d) else none
  | some (g, bd) => if d < yTol ∧ d < bd then some (f, d) else some (g, bd)

/-- Nearest attendance field scan of _match_fields_to_anchors: first field
    achieving the strict minimum vertical distance below y_tolerance. -/
def bestAtt (fields : List AttField) (ay : ℚ) : Option AttField :=
  (fields.foldl (bestStepAtt ay) none).map Prod.fst

/-- Scan step of the nearest percentage field search. -/
def bestStepPct (ay : ℚ) (acc : Option (PctField × ℚ)) (f : PctField) :
    Option (PctField × ℚ) :=
  let d := |f.y_center - ay|
  match acc with
  | none => if d < yTol then some (f, d) else none
  | some (g, bd) => if d < yTol ∧ d < bd then some (f, d) else some (g, bd)

/-- Nearest percentage field scan of _match_fields_to_anchors. -/
def bestPct (fields : List PctField) (ay : ℚ) : Option PctField :=
  (fields.foldl (bestStepPct ay) none).map Prod.fst

/-- Matcher _match_fields_to_anchors: per-anchor greedy nearest-neighbor
    attachment; unmatched values stay None. -/
def matchFieldsToAnchors (anchors : List Anchor) (att : List AttField)
    (pct : List PctField) : List RawEntry :=
  anchors.map (fun a =>
    let ba := bestAtt att a.y_center
    let bp := bestPct pct a.y_center
    { course_code := a.course_code, class_type := a.class_type,
      present := ba.map (fun f => f.present),
      total := ba.map (fun f => f.total),
      percentage := bp.map (fun f => f.percentage),
      y_center := a.y_center, course_name := none })

/-- Row-clustering step of _cluster_tokens_by_y: a token joins the first row
    whose representative y is within tolerance, else opens a new row. -/
def clusterStep (tol : ℚ) (rows : List (ℚ × List Token)) (t : Token) :
    List (ℚ × List Token) :=
  match rows.find? (fun r => decide (|t.y_center - r.1| ≤ tol)) with
  | some r => rows.map (fun q => if q.1 = r.1 then (q.1, q.2 ++ [t]) else q)
  | none => rows ++ [(t.y_center, [t])]

/-- Row clustering _cluster_tokens_by_y: rows sorted by y, tokens within a
    row sorted by x. -/
def clusterTokensByY (tokens : List Token) (tol : ℚ) : List (List Token) :=
  let rows := tokens.foldl (clusterStep tol) []
  (sortStable (fun a b => decide (a.1 ≤ b.1)) rows).map
    (fun r => sortStable (fun a b => decide (a.x_center ≤ b.x_center)) r.2)

/-- Dictionary insertion with Python dict semantics: assignment overwrites
    the value at an existing key in place, else appends. -/
def dictInsert : List (String × String) → String → String → List (String × String)
  | [], k, v => [(k, v)]
  | (k0, v0) :: rest, k, v =>
    if k0 = k then (k0, v) :: rest else (k0, v0) :: dictInsert rest k v

/-- Dictionary lookup. -/
def dictFind (d : List (String × String)) (k : String) : Option String :=
  (d.find? (fun q => q.1 == k)).map Prod.snd

/-- Course dictionary builder _build_course_dictionary over the right-region
    tokens: cluster rows, skip header rows, find a code, pick the longest
    text over 8 characters as the name, and assign into the dict. -/
def buildCourseDictionary (rightTokens : List Token) : List (String × String) :=
  let rows := clusterTokensByY rightTokens 20
  rows.foldl
    (fun dict row =>
      let headerText :=
        String.intercalate " " (row.map (fun t => String.mk (upperL t.text.toList)))
      if containsL "COURSE CODE".toList headerText.toList
          || containsL "COURSE NAME".toList headerText.toList then dict
      else
        match row.findSome? (fun t =>
          match codeSearch (upperL t.text.toList) with
          | some m =>
            let c := normalizeCourseCode (String.mk m)
            if c ≠ "" then some c else none
          | none => none) with
        | none => dict
        | some code =>
          let candidates := row.filterMap (fun t =>
            let s := trimL t.text.toList
            if 8 < s.length then some (String.mk (upperL s)) else none)
          match candidates with
          | [] => dict
          | c0 :: cs =>
            let name := cs.foldl (fun best n =>
              if best.length < n.length then n else best) c0
            dictInsert dict code name)
    []

/-- Name injector _inject_course_names: dictionary value or UNKNOWN. -/
def injectCourseNames (entries : List RawEntry) (dict : List (String × String)) :
    List RawEntry :=
  entries.map (fun e =>
    { e with course_name := some ((dictFind dict e.course_code).getD "UNKNOWN") })

/-- Round half to even at integer precision (model of Python round on the
    exact rational value). -/
def rhe (x : ℚ) : ℤ :=
  let n := ⌊x⌋
  let f := x - (n : ℚ)
  if f < 1/2 then n
  else if 1/2 < f then n + 1
  else if n % 2 = 0 then n else n + 1

/-- Model of Python round(x, 1). -/
def round1 (x : ℚ) : ℚ := (rhe (x * 10) : ℚ) / 10

/-- Validator step _validate_entries for one entry.  The Except error marks
    the TypeError Python raises when a None present/total value reaches the
    comparisons total greater than 0 / present greater than total or the
    division present/total; extract_table_data catches it and returns []. -/
def validateEntry (e : RawEntry) : Except Unit RawEntry :=
  let step1 : Except Unit ℚ :=
    match e.percentage with
    | some v => Except.ok v
    | none =>
      match e.total with
      | none => Except.error ()
      | some t =>
        if 0 < t then
          match e.present with
          | none => Except.error ()
          | some p => Except.ok (round1 ((p : ℚ) / (t : ℚ) * 100))
        else Except.ok 0
  match step1 with
  | Except.error u => Except.error u
  | Except.ok pct =>
    let e1 := { e with percentage := some pct }
    let e2 := if e.present.isNone || e.total.isNone
              then { e1 with present := some 0, total := some 0 } else e1
    match e.present, e.total with
    | some _, some _ => Except.ok e2
    | _, _ => Except.error ()

/-- Validator _validate_entries over the entry list, first error aborting. -/
def validateEntries (entries : List RawEntry) : Except Unit (List RawEntry) :=
  entries.mapM validateEntry

/-- Dedup key of _deduplicate_anchors. -/
def entryKey (e : RawEntry) : String × String := (e.course_code, e.class_type)

/-- Total with the 0 default used by _deduplicate_anchors. -/
def totalD (e : RawEntry) : ℤ := e.total.getD 0

/-- Replacement at an existing key of the anchor map, keeping the position. -/
def mapUpdate (m : List ((String × String) × RawEntry)) (k : String × String)
    (v : RawEntry) : List ((String × String) × RawEntry) :=
  m.map (fun q => if q.1 = k then (q.1, v) else q)

/-- One step of _deduplicate_anchors: insert a fresh key, else replace when
    the new entry has non-zero total against a zero total, or on equal totals
    when the new entry sits lower in the page. -/
def dedupStep (m : List ((String × String) × RawEntry)) (e : RawEntry) :
    List ((String × String) × RawEntry) :=
  let k := entryKey e
  match m.find? (fun q => q.1 == k) with
  | none => m ++ [(k, e)]
  | some q =>
    if (0 < totalD e ∧ totalD q.2 = 0)
        ∨ (totalD e = totalD q.2 ∧ q.2.y_center < e.y_center) then mapUpdate m k e
    else m

/-- Deduplicator _deduplicate_anchors: fold the entries through the anchor
    map and return the surviving values in key insertion order. -/
def deduplicateAnchors (entries : List RawEntry) : List RawEntry :=
  (entries.foldl dedupStep []).map Prod.snd

/-- Sort rank of a class type in _build_final_entries. -/
def typeOrder (ct : String) : Nat :=
  if ct = "LECT" then 0 else if ct = "LAB" then 1 else 2

/-- Sort key comparison of _build_final_entries: the Python tuple order on
    (course_code, type_order). -/
def keyLe (a b : RawEntry) : Bool :=
  decide (a.course_code < b.course_code)
    || (a.course_code == b.course_code
        && decide (typeOrder a.class_type ≤ typeOrder b.class_type))

/-- AttendanceEntry construction of _build_final_entries: pydantic rejects a
    None value for an int/float field and any out-of-range value, and the
    surrounding try/except drops the entry; the fixed confidence 0.95 always
    passes its own [0, 1] bound. -/
def toAttendanceEntry (e : RawEntry) : Option AttendanceEntry :=
  match e.present, e.total, e.percentage with
  | some p, some t, some pc =>
    if 0 ≤ p ∧ 0 ≤ t ∧ 0 ≤ pc ∧ pc ≤ 100 then
      some { course_code := e.course_code,
             course_name := e.course_name.getD "UNKNOWN",
             class_type := e.class_type, present := p, total := t,
             percentage := pc, confidence := 19/20 }
    else none
  | _, _, _ => none

/-- Assembler _build_final_entries: stable sort by the key, then construct. -/
def buildFinalEntries (entries : List RawEntry) : List AttendanceEntry :=
  (sortStable keyLe entries).filterMap toAttendanceEntry

/-- Extraction pipeline extract_table_data from the raw OCR lines onward:
    tokenize, split, detect anchors (empty anchors short-circuit to []),
    detect fields, match, build and inject the dictionary, validate
    (a raised TypeError is caught and yields []), deduplicate, assemble. -/
def extractTableData (lines : List OcrLine) : List AttendanceEntry :=
  if lines.isEmpty then [] else
  let tw := tokenizeOcrLines lines
  let lr := splitLeftRight tw.1 tw.2
  let anchors := detectAnchors lr.1 tw.2
  if anchors.isEmpty then [] else
  let att := detectAttendanceFields lr.1 tw.2
  let pct := detectPercentageFields lr.1 tw.2
  let entries := matchFieldsToAnchors anchors att pct
  let dict := buildCourseDictionary lr.2
  let entries2 := injectCourseNames entries dict
  match validateEntries entries2 with
  | Except.error _ => []
  | Except.ok v => buildFinalEntries (deduplicateAnchors v)

/-- Axis-aligned box of half-width hw and half-height 10 around a center. -/
def mkBoxC (x y hw : ℚ) : Box :=
  { p1 := (x - hw, y - 10), p2 := (x + hw, y - 10),
    p3 := (x + hw, y + 10), p4 := (x - hw, y + 10) }

/-- Token with a given text and center, with a default box around the center. -/
def mkTokenC (s : String) (x y : ℚ) : Token :=
  { text := s, conf := 9/10, x_center := x, y_center := y, box := mkBoxC x y 50 }

/-- End-to-end scenario input of the spec: the four tokens in their zones at
    image width 1000 (the rightmost box edge reaches x = 1000). -/
def c1Lines : List OcrLine :=
  [ { box := mkBoxC 100 200 50, text := "CSUC201", conf := 9/10 },
    { box := mkBoxC 400 203 50, text := "LECT", conf := 9/10 },
    { box := mkBoxC 600 202 50, text := "42/59", conf := 9/10 },
    { box := mkBoxC 900 201 100, text := "71.2%", conf := 9/10 } ]

/-- Input with one detectable anchor and no attendance token anywhere. -/
def c2Lines : List OcrLine :=
  [ { box := mkBoxC 100 200 50, text := "CSUC201", conf := 9/10 },
    { box := mkBoxC 400 203 50, text := "LECT", conf := 9/10 },
    { box := mkBoxC 900 500 100, text := "SOMECOURSENAME", conf := 9/10 } ]

/-- Right-region tokens forming two rows that carry the same course code
    with different course names. -/
def c5Tokens : List Token :=
  [ mkTokenC "ABC123" 10 100, mkTokenC "FIRSTNAME X" 50 100,
    mkTokenC "ABC123" 10 300, mkTokenC "SECONDNAME Y" 50 300 ]

/-- Entry sharing the MATH101 LAB key, parametrized by total and y. -/
def mathEntry (tot : ℤ) (y : ℚ) : RawEntry :=
  { course_code := "MATH101", class_type := "LAB", present := some 0,
    total := some tot, percentage := some 0, y_center := y,
    course_name := some "NUMERICAL METHODS" }

/-- Anchor at y = 200 for the matcher examples. -/
def c7AnchorA : Anchor :=
  { course_code := "CSUC201", class_type := "LECT", x_center := 100, y_center := 200 }

/-- Anchor at y = 210 for the matcher examples. -/
def c7AnchorB : Anchor :=
  { course_code := "MATH101", class_type := "LAB", x_center := 100, y_center := 210 }

/-- Single attendance field between the two anchors. -/
def c7Field : AttField :=
  { present := 42, total := 59, x_center := 600, y_center := 205 }

/-- Course-code token with no class-type token anywhere near it. -/
def c8Token : Token := mkTokenC "CSUC201" 100 200

/-- Two tokens that the fixed 0.52 split sends to opposite regions. -/
def c3Tokens : List Token :=
  [ mkTokenC "50%" 100 100, mkTokenC "COURSENAMEHERE" 900 100 ]

/-- Maximum corner x coordinate of a box. -/
def boxMaxX (b : Box) : ℚ := max (max b.p1.1 b.p2.1) (max b.p3.1 b.p4.1)

/-- Corner x coordinates of a box. -/
def boxXs (b : Box) : List ℚ := [b.p1.1, b.p2.1, b.p3.1, b.p4.1]

/-- Width accumulator of _tokenize_ocr_lines in isolation. -/
def widthAux (init : ℚ) (lines : List OcrLine) : ℚ :=
  lines.foldl (fun m l => max m (boxMaxX l.box)) init

set_option allowUnsafeReducibility true

attribute [local semireducible] Rat.sub Rat.add Rat.mul Rat.div Rat.blt Rat.normalize Rat.divInt Rat.neg Rat.inv

/-- C1: the spec's end-to-end scenario fails on the code.  On the four tokens
    CSUC201 / LECT / 42/59 / 71.2% at image width 1000 the pipeline detects
    the anchor, but the 0.52 region split sends the attendance and percentage
    tokens to the right region, the field detectors (which scan only the left
    region) find nothing, the anchor's entry keeps present = total = None,
    _validate_entries raises a TypeError on the None comparison, and
    extract_table_data catches it and returns the empty list instead of the
    single claimed AttendanceEntry. -/
theorem c1_end_to_end_scenario_returns_empty :
    (detectAnchors (splitLeftRight (tokenizeOcrLines c1Lines).1
        (tokenizeOcrLines c1Lines).2).1 (tokenizeOcrLines c1Lines).2).length = 1 ∧
    (tokenizeOcrLines c1Lines).2 = 1000 ∧
    extractTableData c1Lines = [] := by
  decide

/-- C2: an input whose anchor has no attendance field within tolerance does
    not keep the entry with present = 0 and total = 0: the None values reach
    the comparisons and the division inside _validate_entries, the TypeError
    propagates to the handler of extract_table_data, and the whole run
    returns the empty list. -/
theorem c2_unmatched_attendance_aborts_to_empty :
    (detectAnchors (splitLeftRight (tokenizeOcrLines c2Lines).1
        (tokenizeOcrLines c2Lines).2).1 (tokenizeOcrLines c2Lines).2).length = 1 ∧
    detectAttendanceFields (splitLeftRight (tokenizeOcrLines c2Lines).1
        (tokenizeOcrLines c2Lines).2).1 (tokenizeOcrLines c2Lines).2 = [] ∧
    extractTableData c2Lines = [] := by
  decide

/-- C4: values of the course-code normalization on the three claimed inputs.
    The greedy leading-letter run of the match swallows the letter O before
    the confusion map runs, and the digit part is padded on the right, so the
    first two claimed equations fail: the code maps CSUCO01 and CSUCIO1 to
    CSUC010, not to CSUC001 and CSUC101; the third equation holds. -/
theorem c4_normalize_actual_values :
    normalizeCourseCode "CSUCO01" = "CSUC010" ∧
    normalizeCourseCode "CSUCIO1" = "CSUC010" ∧
    normalizeCourseCode "CSUC2O1" = "CSUC201" ∧
    normalizeCourseCode "CSUCO01" ≠ "CSUC001" ∧
    normalizeCourseCode "CSUCIO1" ≠ "CSUC101" := by
  decide

/-- C5 counterexample: two rows with the same normalized course code and
    different names make the dictionary map the code to the name of the
    LAST row, not the first: assignment into the dict overwrites. -/
theorem c5_counterexample_first_occurrence_loses :
    buildCourseDictionary c5Tokens = [("ABC123", "SECONDNAME Y")] ∧
    dictFind (buildCourseDictionary c5Tokens) "ABC123" ≠ some "FIRSTNAME X" := by
  decide

/-- C6 counterexample: two entries sharing a key with distinct non-zero
    totals (52 at y = 100 before 30 at y = 200) keep the EARLIER entry, not
    the one with larger y_center: the code's tie test is equality of totals,
    not both totals being non-zero. -/
theorem c6_counterexample_nonzero_tie_keeps_earlier :
    deduplicateAnchors [mathEntry 52 100, mathEntry 30 200] = [mathEntry 52 100] ∧
    totalD (mathEntry 52 100) ≠ 0 ∧ totalD (mathEntry 30 200) ≠ 0 ∧
    (mathEntry 52 100).y_center < (mathEntry 30 200).y_center ∧
    mathEntry 52 100 ≠ mathEntry 30 200 := by
  decide

/-- C3: when the fixed 0.52 split leaves both regions non-empty (no median
    fallback), the split is the plain threshold split, the percentage detector
    (which runs on the left region only) finds nothing because every left
    token has x-ratio below 0.52 and the Percentage zone starts at 0.75, the
    matcher therefore leaves every entry's percentage unset, and the
    validator computes each such entry's percentage from present/total when
    total is positive and defaults it to 0.0 otherwise. -/
theorem c3_percentage_fields_empty_on_fixed_split (tokens : List Token) (w : ℚ)
    (hl : tokens.filter (fun t => t.x_center < w * splitThreshold) ≠ [])
    (hr : tokens.filter (fun t => !(t.x_center < w * splitThreshold)) ≠ []) :
    splitLeftRight tokens w =
      (tokens.filter (fun t => t.x_center < w * splitThreshold),
       tokens.filter (fun t => !(t.x_center < w * splitThreshold))) ∧
    detectPercentageFields (splitLeftRight tokens w).1 w = [] ∧
    (∀ anchors att e,
      e ∈ matchFieldsToAnchors anchors att
        (detectPercentageFields (splitLeftRight tokens w).1 w) →
      e.percentage = none) ∧
    (∀ (e : RawEntry) (p t : ℤ), e.percentage = none → e.present = some p → e.total = some t →
      validateEntry e =
        Except.ok { e with percentage := some (if 0 < t then round1 ((p : ℚ) / (t : ℚ) * 100) else 0) }) := by
  have h1 : (tokens.filter (fun t => t.x_center < w * splitThreshold)).isEmpty = false :=
    List.isEmpty_eq_false.mpr hl
  have h2 : (tokens.filter (fun t => !(t.x_center < w * splitThreshold))).isEmpty = false :=
    List.isEmpty_eq_false.mpr hr
  have hsplit : splitLeftRight tokens w =
      (tokens.filter (fun t => t.x_center < w * splitThreshold),
       tokens.filter (fun t => !(t.x_center < w * splitThreshold))) := by
    unfold splitLeftRight
    simp [h1, h2]
  have hzone : ∀ t ∈ tokens.filter (fun t => t.x_center < w * splitThreshold),
      inZone (xRatio t.x_center w) percentageZone = false := by
    intro t ht
    have hx : t.x_center < w * splitThreshold := by
      have := (List.mem_filter.mp ht).2
      exact of_decide_eq_true this
    unfold inZone xRatio percentageZone
    by_cases hw : 0 < w
    · have hratio : t.x_center / w < 3/4 := by
        rw [div_lt_iff₀ hw]
        unfold splitThreshold at hx
        nlinarith
      simp [hw, hratio.not_le]
    · norm_num [hw]
  have hpct : detectPercentageFields (splitLeftRight tokens w).1 w = [] := by
    rw [hsplit]
    unfold detectPercentageFields
    rw [List.filterMap_eq_nil_iff]
    intro t ht
    have hz := hzone t ht
    cases hps : pctSearch t.text.toList with
    | none => simp [hps]
    | some v => simp [hps, hz]
  refine ⟨hsplit, hpct, ?_, ?_⟩
  · intro anchors att e he
    rw [hpct] at he
    unfold matchFieldsToAnchors at he
    obtain ⟨a, _, rfl⟩ := List.mem_map.mp he
    simp [bestPct]
  · intro e p t hpc hp ht
    by_cases h0 : 0 < t <;>
      simp [validateEntry, hpc, hp, ht, h0]

/-- C3 witness: a concrete two-token list split cleanly at threshold 520 of
    width 1000, with the theorem's consequences instantiated. -/
theorem c3_witness :
    splitLeftRight c3Tokens 1000 =
      (c3Tokens.filter (fun t => t.x_center < 1000 * splitThreshold),
       c3Tokens.filter (fun t => !(t.x_center < 1000 * splitThreshold))) ∧
    detectPercentageFields (splitLeftRight c3Tokens 1000).1 1000 = [] ∧
    (∀ anchors att e,
      e ∈ matchFieldsToAnchors anchors att
        (detectPercentageFields (splitLeftRight c3Tokens 1000).1 1000) →
      e.percentage = none) ∧
    (∀ (e : RawEntry) (p t : ℤ), e.percentage = none → e.present = some p → e.total = some t →
      validateEntry e =
        Except.ok { e with percentage := some (if 0 < t then round1 ((p : ℚ) / (t : ℚ) * 100) else 0) }) :=
  c3_percentage_fields_empty_on_fixed_split c3Tokens 1000 (by decide) (by decide)

/-- C5 amended: assignment into the course dictionary overwrites the value at
    an existing key, so when two distinct rows yield the same normalized code
    with different names the dictionary maps the code to the name of the LAST
    such row in row order; concretely, the two-row input maps ABC123 to the
    second row's name. -/
theorem c5_last_occurrence_wins (d : List (String × String)) (code n1 n2 : String) :
    dictFind (dictInsert (dictInsert d code n1) code n2) code = some n2 ∧
    buildCourseDictionary c5Tokens = [("ABC123", "SECONDNAME Y")] := by
  refine ⟨?_, by decide⟩
  induction d with
  | nil => simp [dictInsert, dictFind]
  | cons hd tl ih =>
    obtain ⟨k0, v0⟩ := hd
    by_cases hk : k0 = code
    · subst hk
      simp [dictInsert, dictFind]
    · simpa [dictInsert, dictFind, List.find?, hk] using ih

/-- C6 amended: for two entries sharing a key, deduplication keeps the later
    entry exactly when it has non-zero total against a zero total, or the
    totals are EQUAL and the later entry sits lower in the page; in every
    other case (including distinct non-zero totals) the earlier entry is
    kept.  In particular the MATH101 LAB pair with totals 0 and 52 resolves
    to the total-52 entry in either encounter order. -/
theorem c6_dedup_pairwise (e1 e2 : RawEntry) (h : entryKey e1 = entryKey e2) :
    deduplicateAnchors [e1, e2] =
      [if (0 < totalD e2 ∧ totalD e1 = 0)
          ∨ (totalD e2 = totalD e1 ∧ e1.y_center < e2.y_center)
       then e2 else e1] ∧
    deduplicateAnchors [mathEntry 0 100, mathEntry 52 200] = [mathEntry 52 200] ∧
    deduplicateAnchors [mathEntry 52 200, mathEntry 0 100] = [mathEntry 52 200] := by
  refine ⟨?_, by decide, by decide⟩
  have hbeq : (entryKey e1 == entryKey e2) = true := by
    rw [h]
    simp
  unfold deduplicateAnchors
  simp only [List.foldl_cons, List.foldl_nil]
  have hstep1 : dedupStep [] e1 = [(entryKey e1, e1)] := by
    simp [dedupStep]
  rw [hstep1]
  unfold dedupStep
  simp only [List.find?_cons, hbeq, cond_true, List.find?_nil]
  split
  · simp [mapUpdate, h]
  · simp

/-- C6 witness: the amended rule applied to the concrete distinct-non-zero
    pair of the counterexample, with its key equality discharged by rfl. -/
theorem c6_dedup_pairwise_witness :
    deduplicateAnchors [mathEntry 52 100, mathEntry 30 200] =
      [if (0 < totalD (mathEntry 30 200) ∧ totalD (mathEntry 52 100) = 0)
          ∨ (totalD (mathEntry 30 200) = totalD (mathEntry 52 100)
             ∧ (mathEntry 52 100).y_center < (mathEntry 30 200).y_center)
       then mathEntry 30 200 else mathEntry 52 100] ∧
    deduplicateAnchors [mathEntry 0 100, mathEntry 52 200] = [mathEntry 52 200] ∧
    deduplicateAnchors [mathEntry 52 200, mathEntry 0 100] = [mathEntry 52 200] :=
  c6_dedup_pairwise (mathEntry 52 100) (mathEntry 30 200) rfl

/-- C7 counterexample: one attendance field at y = 205 lies within tolerance
    of two distinct anchors at y = 200 and y = 210 and supplies its values to
    both resulting entries: the greedy per-anchor matcher does not consume
    fields, so a field can belong to more than one anchor. -/
theorem c7_counterexample_field_feeds_two_anchors :
    (matchFieldsToAnchors [c7AnchorA, c7AnchorB] [c7Field] []).map
        (fun e => (e.present, e.total))
      = [(some 42, some 59), (some 42, some 59)] ∧
    c7AnchorA ≠ c7AnchorB := by
  decide

/-- Soundness of the attendance scan fold: a returned best field came either
    from the accumulator or from the scanned list, within tolerance. -/
theorem bestStepAtt_fold (ay : ℚ) (l : List AttField) :
    ∀ (acc : Option (AttField × ℚ)) (fd : AttField × ℚ),
      l.foldl (bestStepAtt ay) acc = some fd →
      acc = some fd ∨ (fd.1 ∈ l ∧ |fd.1.y_center - ay| < yTol) := by
  induction l with
  | nil => intro acc fd h; exact Or.inl h
  | cons f fs ih =>
    intro acc fd h
    rcases ih (bestStepAtt ay acc f) fd h with h1 | h2
    · unfold bestStepAtt at h1
      cases acc with
      | none =>
        by_cases hd : |f.y_center - ay| < yTol
        · simp only [hd, if_true] at h1
          obtain rfl : (f, |f.y_center - ay|) = fd := Option.some.inj h1
          exact Or.inr ⟨List.mem_cons_self f fs, hd⟩
        · simp [hd] at h1
      | some gb =>
        by_cases hd : |f.y_center - ay| < yTol ∧ |f.y_center - ay| < gb.2
        · simp only [hd, if_true] at h1
          obtain rfl : (f, |f.y_center - ay|) = fd := Option.some.inj h1
          exact Or.inr ⟨List.mem_cons_self f fs, hd.1⟩
        · simp only [hd, if_false] at h1
          exact Or.inl h1
    · exact Or.inr ⟨List.mem_cons_of_mem f h2.1, h2.2⟩

/-- Soundness of the nearest attendance field search: a returned field is in
    the scanned list and within tolerance of the anchor. -/
theorem bestAtt_some (fields : List AttField) (ay : ℚ) (f : AttField)
    (h : bestAtt fields ay = some f) :
    f ∈ fields ∧ |f.y_center - ay| < yTol := by
  unfold bestAtt at h
  obtain ⟨fd, hfold, hfst⟩ := Option.map_eq_some'.mp h
  rcases bestStepAtt_fold ay fields none fd hfold with h1 | h2
  · exact absurd h1 (by simp)
  · exact hfst ▸ h2

/-- Soundness of the percentage scan fold. -/
theorem bestStepPct_fold (ay : ℚ) (l : List PctField) :
    ∀ (acc : Option (PctField × ℚ)) (fd : PctField × ℚ),
      l.foldl (bestStepPct ay) acc = some fd →
      acc = some fd ∨ (fd.1 ∈ l ∧ |fd.1.y_center - ay| < yTol) := by
  induction l with
  | nil => intro acc fd h; exact Or.inl h
  | cons f fs ih =>
    intro acc fd h
    rcases ih (bestStepPct ay acc f) fd h with h1 | h2
    · unfold bestStepPct at h1
      cases acc with
      | none =>
        by_cases hd : |f.y_center - ay| < yTol
        · simp only [hd, if_true] at h1
          obtain rfl : (f, |f.y_center - ay|) = fd := Option.some.inj h1
          exact Or.inr ⟨List.mem_cons_self f fs, hd⟩
        · simp [hd] at h1
      | some gb =>
        by_cases hd : |f.y_center - ay| < yTol ∧ |f.y_center - ay| < gb.2
        · simp only [hd, if_true] at h1
          obtain rfl : (f, |f.y_center - ay|) = fd := Option.some.inj h1
          exact Or.inr ⟨List.mem_cons_self f fs, hd.1⟩
        · simp only [hd, if_false] at h1
          exact Or.inl h1
    · exact Or.inr ⟨List.mem_cons_of_mem f h2.1, h2.2⟩

/-- Soundness of the nearest percentage field search. -/
theorem bestPct_some (fields : List PctField) (ay : ℚ) (g : PctField)
    (h : bestPct fields ay = some g) :
    g ∈ fields ∧ |g.y_center - ay| < yTol := by
  unfold bestPct at h
  obtain ⟨fd, hfold, hfst⟩ := Option.map_eq_some'.mp h
  rcases bestStepPct_fold ay fields none fd hfold with h1 | h2
  · exact absurd h1 (by simp)
  · exact hfst ▸ h2

/-- C7 amended: the matcher emits exactly one entry per anchor, and each
    entry's attendance values come from at most ONE attendance field (a
    member of the field list within y_tolerance of the anchor) and its
    percentage from at most one percentage field; a single field may however
    be attached to several anchors. -/
theorem c7_each_anchor_gets_at_most_one_field (anchors : List Anchor)
    (att : List AttField) (pct : List PctField) :
    (matchFieldsToAnchors anchors att pct).length = anchors.length ∧
    (∀ e ∈ matchFieldsToAnchors anchors att pct,
      (e.present = none ∧ e.total = none) ∨
      ∃ f ∈ att, e.present = some f.present ∧ e.total = some f.total ∧
        |f.y_center - e.y_center| < yTol) ∧
    (∀ e ∈ matchFieldsToAnchors anchors att pct,
      e.percentage = none ∨
      ∃ g ∈ pct, e.percentage = some g.percentage ∧
        |g.y_center - e.y_center| < yTol) := by
  refine ⟨by simp [matchFieldsToAnchors], ?_, ?_⟩
  · intro e he
    obtain ⟨a, ha, rfl⟩ := List.mem_map.mp he
    cases hb : bestAtt att a.y_center with
    | none => exact Or.inl (by simp [hb])
    | some f =>
      obtain ⟨hmem, hlt⟩ := bestAtt_some att a.y_center f hb
      exact Or.inr ⟨f, hmem, by simp [hb], by simp [hb], by simpa using hlt⟩
  · intro e he
    obtain ⟨a, ha, rfl⟩ := List.mem_map.mp he
    cases hb : bestPct pct a.y_center with
    | none => exact Or.inl (by simp [hb])
    | some g =>
      obtain ⟨hmem, hlt⟩ := bestPct_some pct a.y_center g hb
      exact Or.inr ⟨g, hmem, by simp [hb], by simpa using hlt⟩

/-- C7 amended witness: the per-anchor guarantees instantiated on the
    counterexample inputs. -/
theorem c7_each_anchor_witness :
    (matchFieldsToAnchors [c7AnchorA, c7AnchorB] [c7Field] []).length = 2 ∧
    (∀ e ∈ matchFieldsToAnchors [c7AnchorA, c7AnchorB] [c7Field] [],
      (e.present = none ∧ e.total = none) ∨
      ∃ f ∈ [c7Field], e.present = some f.present ∧ e.total = some f.total ∧
        |f.y_center - e.y_center| < yTol) ∧
    (∀ e ∈ matchFieldsToAnchors [c7AnchorA, c7AnchorB] [c7Field] [],
      e.percentage = none ∨
      ∃ g ∈ ([] : List PctField), e.percentage = some g.percentage ∧
        |g.y_center - e.y_center| < yTol) :=
  c7_each_anchor_gets_at_most_one_field [c7AnchorA, c7AnchorB] [c7Field] []

/-- C8: a token that matches the course-code pattern and lies in the
    CourseCode zone yields no anchor when no OTHER token (list position
    models Python object identity) within y_tolerance of it contains LECT or
    LAB in its uppercased text: the candidate is discarded.  The detector
    _detect_anchors is the filterMap of mkAnchor over the enumerated tokens,
    so a none result here drops the candidate from the anchor list. -/
theorem c8_no_class_type_no_anchor (tokens : List Token) (w : ℚ) (i : Nat)
    (t : Token)
    (hmem : (i, t) ∈ tokens.enum)
    (hcode : (codeSearch (upperL t.text.toList)).isSome = true)
    (hzone : inZone (xRatio t.x_center w) courseCodeZone = true)
    (hnone : ∀ j u, (j, u) ∈ tokens.enum → j ≠ i →
        |u.y_center - t.y_center| ≤ yTol →
        containsL "LECT".toList (upperL u.text.toList) = false ∧
        containsL "LAB".toList (upperL u.text.toList) = false) :
    mkAnchor tokens.enum w i t = none := by
  have hfind : findClassType tokens.enum i t = none := by
    unfold findClassType
    rw [List.findSome?_eq_none_iff]
    intro q hq
    by_cases hqi : q.1 = i
    · simp [hqi]
    · by_cases hy : |q.2.y_center - t.y_center| ≤ yTol
      · obtain ⟨hlect, hlab⟩ := hnone q.1 q.2 (by simpa using hq) hqi hy
        simp only [String.toList] at hlect hlab
        simp [hqi, hy, classTypeOf, hlect, hlab]
      · simp [hqi, hy]
  obtain ⟨code, hc⟩ := Option.isSome_iff_exists.mp hcode
  unfold mkAnchor
  rw [hc]
  simp [hzone, hfind]

/-- C8 witness: a lone course-code token with no class-type token anywhere
    produces no anchor. -/
theorem c8_no_class_type_witness :
    (0, c8Token) ∈ [c8Token].enum ∧
    (codeSearch (upperL c8Token.text.toList)).isSome = true ∧
    inZone (xRatio c8Token.x_center 1000) courseCodeZone = true ∧
    mkAnchor [c8Token].enum 1000 0 c8Token = none := by
  refine ⟨by decide, by decide, by decide, ?_⟩
  refine c8_no_class_type_no_anchor [c8Token] 1000 0 c8Token (by decide) (by decide)
    (by decide) ?_
  intro j u hj hne hy
  have : (j, u) = (0, c8Token) := by simpa using hj
  exact absurd (congrArg Prod.fst this) hne

/-- Membership through the insertion step of the stable sort. -/
theorem mem_insertLe (le : α → α → Bool) (x : α) (l : List α) (z : α)
    (h : z ∈ insertLe le x l) : z = x ∨ z ∈ l := by
  induction l with
  | nil => simpa [insertLe] using h
  | cons y ys ih =>
    unfold insertLe at h
    by_cases hle : le y x = true
    · simp only [hle, if_true, List.mem_cons] at h
      rcases h with h1 | h2
      · exact Or.inr (by simp [h1])
      · rcases ih h2 with h3 | h4
        · exact Or.inl h3
        · exact Or.inr (List.mem_cons_of_mem y h4)
    · simp only [hle, if_false] at h
      rcases List.mem_cons.mp h with h1 | h2
      · exact Or.inl h1
      · exact Or.inr h2

/-- Insertion into a sorted list keeps it sorted, for a transitive total
    boolean comparison. -/
theorem pairwise_insertLe (le : α → α → Bool)
    (htrans : ∀ a b c, le a b = true → le b c = true → le a c = true)
    (htotal : ∀ a b, le a b = true ∨ le b a = true)
    (x : α) (l : List α) (h : l.Pairwise (fun a b => le a b = true)) :
    (insertLe le x l).Pairwise (fun a b => le a b = true) := by
  induction l with
  | nil => simp [insertLe]
  | cons y ys ih =>
    obtain ⟨hy, hys⟩ := List.pairwise_cons.mp h
    unfold insertLe
    by_cases hle : le y x = true
    · simp only [hle, if_true]
      refine List.pairwise_cons.mpr ⟨?_, ih hys⟩
      intro z hz
      rcases mem_insertLe le x ys z hz with rfl | h2
      · exact hle
      · exact hy z h2
    · simp only [hle, if_false]
      have hxy : le x y = true := (htotal x y).resolve_right hle
      refine List.pairwise_cons.mpr ⟨?_, h⟩
      intro z hz
      rcases List.mem_cons.mp hz with rfl | h2
      · exact hxy
      · exact htrans x y z hxy (hy z h2)

/-- The stable sort produces a list sorted for its comparison. -/
theorem pairwise_sortStable (le : α → α → Bool)
    (htrans : ∀ a b c, le a b = true → le b c = true → le a c = true)
    (htotal : ∀ a b, le a b = true ∨ le b a = true) (l : List α) :
    (sortStable le l).Pairwise (fun a b => le a b = true) := by
  unfold sortStable
  suffices h : ∀ acc : List α, acc.Pairwise (fun a b => le a b = true) →
      (l.foldl (fun acc x => insertLe le x acc) acc).Pairwise
        (fun a b => le a b = true) from h [] List.Pairwise.nil
  induction l with
  | nil => intro acc hacc; exact hacc
  | cons x xs ih =>
    intro acc hacc
    simpa using ih (insertLe le x acc) (pairwise_insertLe le htrans htotal x acc hacc)

/-- Decoding of the assembler's sort key comparison. -/
theorem keyLe_iff (a b : RawEntry) :
    keyLe a b = true ↔
      (a.course_code < b.course_code ∨
       (a.course_code = b.course_code ∧
        typeOrder a.class_type ≤ typeOrder b.class_type)) := by
  simp [keyLe, Bool.or_eq_true, Bool.and_eq_true, decide_eq_true_eq, beq_iff_eq]

/-- Transitivity of the assembler's sort key comparison. -/
theorem keyLe_trans (a b c : RawEntry) (h1 : keyLe a b = true)
    (h2 : keyLe b c = true) : keyLe a c = true := by
  rcases (keyLe_iff a b).mp h1 with hab | ⟨hab, oab⟩ <;>
    rcases (keyLe_iff b c).mp h2 with hbc | ⟨hbc, obc⟩
  · exact (keyLe_iff _ _).mpr (Or.inl (lt_trans hab hbc))
  · exact (keyLe_iff _ _).mpr (Or.inl (hbc ▸ hab))
  · exact (keyLe_iff _ _).mpr (Or.inl (hab ▸ hbc))
  · exact (keyLe_iff _ _).mpr (Or.inr ⟨hab.trans hbc, le_trans oab obc⟩)

/-- Totality of the assembler's sort key comparison. -/
theorem keyLe_total (a b : RawEntry) : keyLe a b = true ∨ keyLe b a = true := by
  rcases lt_trichotomy a.course_code b.course_code with h | h | h
  · exact Or.inl ((keyLe_iff _ _).mpr (Or.inl h))
  · rcases Nat.le_total (typeOrder a.class_type) (typeOrder b.class_type) with ho | ho
    · exact Or.inl ((keyLe_iff _ _).mpr (Or.inr ⟨h, ho⟩))
    · exact Or.inr ((keyLe_iff _ _).mpr (Or.inr ⟨h.symm, ho⟩))
  · exact Or.inr ((keyLe_iff _ _).mpr (Or.inl h))

/-- AttendanceEntry construction copies course code and class type. -/
theorem toAttendanceEntry_fields (e : RawEntry) (x : AttendanceEntry)
    (h : toAttendanceEntry e = some x) :
    x.course_code = e.course_code ∧ x.class_type = e.class_type := by
  unfold toAttendanceEntry at h
  cases hp : e.present with
  | none => rw [hp] at h; simp at h
  | some p =>
    cases ht : e.total with
    | none => rw [hp, ht] at h; simp at h
    | some t =>
      cases hpc : e.percentage with
      | none => rw [hp, ht, hpc] at h; simp at h
      | some pc =>
        rw [hp, ht, hpc] at h
        simp only at h
        split at h
        · cases Option.some.inj h
          exact ⟨rfl, rfl⟩
        · exact absurd h (by simp)

/-- Pairwise sort property of the assembler on any entry list: the filterMap
    of entry construction preserves the pairwise order of the stable sort by
    (course_code, LECT before LAB). -/
theorem buildFinalEntries_pairwise (entries : List RawEntry) :
    (buildFinalEntries entries).Pairwise (fun a b =>
      a.course_code ≤ b.course_code ∧
      (a.course_code = b.course_code →
        ¬(a.class_type = "LAB" ∧ b.class_type = "LECT"))) := by
  unfold buildFinalEntries
  rw [List.pairwise_filterMap]
  refine (pairwise_sortStable keyLe keyLe_trans keyLe_total entries).imp ?_
  intro a b hab x hx y hy
  obtain ⟨hxc, hxt⟩ := toAttendanceEntry_fields a x (Option.mem_def.mp hx)
  obtain ⟨hyc, hyt⟩ := toAttendanceEntry_fields b y (Option.mem_def.mp hy)
  rcases (keyLe_iff a b).mp hab with hlt | ⟨heq, hord⟩
  · refine ⟨hxc ▸ hyc ▸ le_of_lt hlt, ?_⟩
    intro heq2 _
    exact absurd (hxc ▸ hyc ▸ heq2) (ne_of_lt hlt)
  · refine ⟨hxc ▸ hyc ▸ le_of_eq heq, ?_⟩
    intro _ hcls
    have ha : a.class_type = "LAB" := hxt ▸ hcls.1
    have hb : b.class_type = "LECT" := hyt ▸ hcls.2
    rw [ha, hb] at hord
    simp [typeOrder] at hord

/-- C9: every output list of the pipeline is non-decreasing in course_code,
    and among entries with equal course_code no LAB entry precedes a LECT
    entry (every LECT entry precedes every LAB entry).  The early-return
    branches emit the empty list; the normal branch emits the assembler's
    sorted output. -/
theorem c9_sort_invariant (lines : List OcrLine) :
    (extractTableData lines).Pairwise (fun a b =>
      a.course_code ≤ b.course_code ∧
      (a.course_code = b.course_code →
        ¬(a.class_type = "LAB" ∧ b.class_type = "LECT"))) := by
  unfold extractTableData
  split
  · exact List.Pairwise.nil
  · dsimp only
    split
    · exact List.Pairwise.nil
    · split
      · exact List.Pairwise.nil
      · exact buildFinalEntries_pairwise _

/-- Unfolding of the width accumulator over a cons. -/
theorem widthAux_cons (init : ℚ) (a : OcrLine) (as : List OcrLine) :
    widthAux init (a :: as) = widthAux (max init (boxMaxX a.box)) as := rfl

/-- Width component of the tokenizer: it equals the running maximum of the
    per-box corner maxima, seeded with 0. -/
theorem tokenizeOcrLines_snd (lines : List OcrLine) :
    (tokenizeOcrLines lines).2 = widthAux 0 lines := by
  suffices h : ∀ (ts : List Token) (w : ℚ),
      (lines.foldl
        (fun acc line =>
          let b := line.box
          let xc := (b.p1.1 + b.p2.1 + b.p3.1 + b.p4.1) / 4
          let yc := (b.p1.2 + b.p2.2 + b.p3.2 + b.p4.2) / 4
          let mx := max (max b.p1.1 b.p2.1) (max b.p3.1 b.p4.1)
          (acc.1 ++ [{ text := String.mk (trimL line.text.toList),
                       conf := line.conf, x_center := xc, y_center := yc,
                       box := b }], max acc.2 mx))
        (ts, w)).2 = widthAux w lines by
    exact h [] 0
  induction lines with
  | nil => intro ts w; rfl
  | cons a as ih =>
    intro ts w
    rw [List.foldl_cons, widthAux_cons]
    exact ih _ _

/-- The width accumulator never drops below its seed. -/
theorem widthAux_le_init (lines : List OcrLine) :
    ∀ init : ℚ, init ≤ widthAux init lines := by
  induction lines with
  | nil => intro init; exact le_refl _
  | cons a as ih =>
    intro init
    rw [widthAux_cons]
    exact le_trans (le_max_left _ _) (ih _)

/-- Every line's corner maximum is bounded by the width accumulator. -/
theorem widthAux_mem (lines : List OcrLine) :
    ∀ (init : ℚ), ∀ l ∈ lines, boxMaxX l.box ≤ widthAux init lines := by
  induction lines with
  | nil => intro init l hl; simp at hl
  | cons a as ih =>
    intro init l hl
    rw [widthAux_cons]
    rcases List.mem_cons.mp hl with h1 | h2
    · rw [h1]
      exact le_trans (le_max_right _ _) (widthAux_le_init as _)
    · exact ih _ l h2

/-- The width accumulator returns either its seed or some line's corner
    maximum. -/
theorem widthAux_cases (lines : List OcrLine) :
    ∀ init : ℚ, widthAux init lines = init ∨
      ∃ l ∈ lines, widthAux init lines = boxMaxX l.box := by
  induction lines with
  | nil => intro init; exact Or.inl rfl
  | cons a as ih =>
    intro init
    rw [widthAux_cons]
    rcases ih (max init (boxMaxX a.box)) with h | ⟨l, hl, he⟩
    · rcases max_choice init (boxMaxX a.box) with hm | hm
      · exact Or.inl (h.trans hm)
      · exact Or.inr ⟨a, List.mem_cons_self a as, h.trans hm⟩
    · exact Or.inr ⟨l, List.mem_cons_of_mem a hl, he⟩

/-- Every corner x coordinate is bounded by the box corner maximum. -/
theorem le_boxMaxX (b : Box) (x : ℚ) (hx : x ∈ boxXs b) : x ≤ boxMaxX b := by
  unfold boxMaxX
  rcases (by simpa [boxXs] using hx :
      x = b.p1.1 ∨ x = b.p2.1 ∨ x = b.p3.1 ∨ x = b.p4.1) with h | h | h | h <;>
    rw [h]
  · exact le_trans (le_max_left _ _) (le_max_left _ _)
  · exact le_trans (le_max_right _ _) (le_max_left _ _)
  · exact le_trans (le_max_left _ _) (le_max_right _ _)
  · exact le_trans (le_max_right _ _) (le_max_right _ _)

/-- The box corner maximum is one of the four corner x coordinates. -/
theorem boxMaxX_mem (b : Box) : boxMaxX b ∈ boxXs b := by
  unfold boxMaxX boxXs
  rcases max_choice (max b.p1.1 b.p2.1) (max b.p3.1 b.p4.1) with h | h <;> rw [h]
  · rcases max_choice b.p1.1 b.p2.1 with h2 | h2 <;> rw [h2] <;> simp
  · rcases max_choice b.p3.1 b.p4.1 with h2 | h2 <;> rw [h2] <;> simp

/-- C10: the tokenizer's returned image width is the maximum corner x
    coordinate over all token boxes (for a non-empty line list with the
    non-negative pixel coordinates OCR produces): it bounds every corner and
    is attained by one.  No separately supplied pixel width enters: the
    extraction pipeline passes this value as image_width to the splitter and
    the zone tests, so zoning is a function of the token list alone. -/
theorem c10_image_width_is_max_corner_x (lines : List OcrLine)
    (hne : lines ≠ [])
    (hnn : ∀ l ∈ lines, ∀ x ∈ boxXs l.box, (0 : ℚ) ≤ x) :
    (∀ l ∈ lines, ∀ x ∈ boxXs l.box, x ≤ (tokenizeOcrLines lines).2) ∧
    (∃ l ∈ lines, ∃ x ∈ boxXs l.box, x = (tokenizeOcrLines lines).2) := by
  rw [tokenizeOcrLines_snd]
  constructor
  · intro l hl x hx
    exact le_trans (le_boxMaxX l.box x hx) (widthAux_mem lines 0 l hl)
  · rcases widthAux_cases lines 0 with h0 | ⟨l, hl, he⟩
    · obtain ⟨a, as, rfl⟩ := List.exists_cons_of_ne_nil hne
      have h1 : boxMaxX a.box ≤ widthAux 0 (a :: as) :=
        widthAux_mem (a :: as) 0 a (List.mem_cons_self a as)
      rw [h0] at h1
      have h2 : (0 : ℚ) ≤ boxMaxX a.box :=
        le_trans (hnn a (List.mem_cons_self a as) a.box.p1.1 (by simp [boxXs]))
          (le_boxMaxX a.box a.box.p1.1 (by simp [boxXs]))
      refine ⟨a, List.mem_cons_self a as, boxMaxX a.box, boxMaxX_mem a.box, ?_⟩
      rw [h0]
      exact le_antisymm h1 h2
    · exact ⟨l, hl, boxMaxX l.box, boxMaxX_mem l.box, he.symm⟩

/-- C10 witness: the corner-maximum width property on the end-to-end input,
    whose width comes out as 1000. -/
theorem c10_image_width_witness :
    c1Lines ≠ [] ∧
    (∀ l ∈ c1Lines, ∀ x ∈ boxXs l.box, (0 : ℚ) ≤ x) ∧
    (∀ l ∈ c1Lines, ∀ x ∈ boxXs l.box, x ≤ (tokenizeOcrLines c1Lines).2) ∧
    (∃ l ∈ c1Lines, ∃ x ∈ boxXs l.box, x = (tokenizeOcrLines c1Lines).2) := by
  have hne : c1Lines ≠ [] := by decide
  have hnn : ∀ l ∈ c1Lines, ∀ x ∈ boxXs l.box, (0 : ℚ) ≤ x := by decide
  have h := c10_image_width_is_max_corner_x c1Lines hne hnn
  exact ⟨hne, hnn, h.1, h.2⟩

end Hajri
